import Mathlib

/-!
Shallow embedding of the two training scripts of this repository
(`BERT.py`, pipeline A, and `SBERT.py`, pipeline B) together with proofs
of the specified properties.

Randomness is modelled by explicit oracles: the pair sampler of pipeline B
consumes an infinite stream `draws : Nat → Nat × Nat` of index pairs, one
per call of `np.random.choice(n, 2, replace=False)`; the contract of that
library call (two distinct indices below `n`) is the `validDraw` predicate
on the stream's elements.  Loops that the source runs without a bound are
embedded with explicit fuel and return `Option`.
-/

namespace SBERT

/-- Contract of one call of `np.random.choice(n, 2, replace=False)`
(`SBERT.py` lines 43/45/49/51): two distinct indices, both below `n`. -/
def validDraw (n : Nat) (p : Nat × Nat) : Prop :=
  p.1 ≠ p.2 ∧ p.1 < n ∧ p.2 < n

instance (n : Nat) (p : Nat × Nat) : Decidable (validDraw n p) := by
  unfold validDraw; infer_instance

/-- A stream of draws in which every element satisfies the library contract. -/
def ValidStream (n : Nat) (draws : Nat → Nat × Nat) : Prop :=
  ∀ j, validDraw n (draws j)

/-- A stream that, past every position, eventually produces every valid pair. -/
def FairStream (n : Nat) (draws : Nat → Nat × Nat) : Prop :=
  ∀ p : Nat × Nat, validDraw n p → ∀ i, ∃ j, i ≤ j ∧ draws j = p

/-- Acceptance test of the first rejection loop (`SBERT.py` line 44):
the loop redraws `while train_labels_subset[idx1] != train_labels_subset[idx2]`,
so a draw is accepted when the two labels are equal. -/
def samePred (labels : List Nat) (p : Nat × Nat) : Bool :=
  labels.getD p.1 0 == labels.getD p.2 0

/-- Acceptance test of the second rejection loop (`SBERT.py` line 50):
the loop redraws `while train_labels_subset[idx1] == train_labels_subset[idx2]`,
so a draw is accepted when the two labels differ. -/
def diffPred (labels : List Nat) (p : Nat × Nat) : Bool :=
  !(labels.getD p.1 0 == labels.getD p.2 0)

/-- One rejection-sampling loop (`SBERT.py` lines 43-45 resp. 49-51):
draw, then redraw while the acceptance test fails.  The source loop has no
bound; the embedding takes explicit fuel and returns the accepted pair
together with the next unread stream position, or `none` when the fuel is
exhausted. -/
def findDraw (draws : Nat → Nat × Nat) (pred : Nat × Nat → Bool) :
    Nat → Nat → Option ((Nat × Nat) × Nat)
  | 0, _ => none
  | fuel + 1, i =>
    if pred (draws i) then some (draws i, i + 1)
    else findDraw draws pred fuel (i + 1)

/-- `InputExample(texts=[...], label=...)` as constructed at
`SBERT.py` lines 47 and 53; the label `1.0` / `0.0` is an exact rational. -/
structure InputExample where
  texts : List String
  label : ℚ
deriving DecidableEq

/-- The pair-generation loop (`SBERT.py` lines 42-53).  Each iteration
accepts one same-class draw, appends an `InputExample` with label `1.0`,
accepts one different-class draw, and appends an `InputExample` with label
`0.0`.  The accepted index pair is recorded alongside the example it
produced, so that properties of the sampled documents can be stated.
Arguments: per-loop fuel, remaining iterations, current stream position. -/
def createPairs (texts : List String) (labels : List Nat)
    (draws : Nat → Nat × Nat) (fuel : Nat) :
    Nat → Nat → Option (List ((Nat × Nat) × InputExample))
  | 0, _ => some []
  | k + 1, i =>
    match findDraw draws (samePred labels) fuel i with
    | none => none
    | some (p₁, i₁) =>
      match findDraw draws (diffPred labels) fuel i₁ with
      | none => none
      | some (p₂, i₂) =>
        match createPairs texts labels draws fuel k i₂ with
        | none => none
        | some rest =>
          some ((p₁, ⟨[texts.getD p₁.1 "", texts.getD p₁.2 ""], 1⟩) ::
                (p₂, ⟨[texts.getD p₂.1 "", texts.getD p₂.2 ""], 0⟩) :: rest)

/-- The `train_examples` list itself (`SBERT.py` line 39): the examples
without the recorded draws. -/
def trainExamples (texts : List String) (labels : List Nat)
    (draws : Nat → Nat × Nat) (fuel numPairs : Nat) :
    Option (List InputExample) :=
  (createPairs texts labels draws fuel numPairs 0).map (·.map (·.2))

/-- `num_pairs = 1000` (`SBERT.py` line 41). -/
def numPairs : Nat := 1000

/-- The training subset contains two distinct documents with equal labels. -/
def HasSamePair (labels : List Nat) : Prop :=
  ∃ a b, a < labels.length ∧ b < labels.length ∧ a ≠ b ∧
    labels.getD a 0 = labels.getD b 0

/-- The training subset contains two distinct documents with differing labels. -/
def HasDiffPair (labels : List Nat) : Prop :=
  ∃ a b, a < labels.length ∧ b < labels.length ∧ a ≠ b ∧
    labels.getD a 0 ≠ labels.getD b 0

end SBERT

namespace Split

/-- Modelled from the spec: `sklearn.model_selection.train_test_split(documents,
labels, test_size=0.2, random_state=42, stratify=labels)`, called at
`BERT.py` lines 30-32 and `SBERT.py` lines 21-23, is external library code;
the spec describes it as a deterministic (fixed seed 42) stratified 80/20
split.  `nTest n = ⌈0.2 · n⌉` is the size of the test partition for `n`
documents. -/
def nTest (n : Nat) : Nat := (n + 4) / 5

/-- The label sequence of a document list. -/
def labelsOf (data : List (α × Nat)) : List Nat := data.map Prod.snd

/-- The distinct class labels, in order of first appearance. -/
def classesOf (data : List (α × Nat)) : List Nat := (labelsOf data).dedup

/-- The documents of class `c`, in input order. -/
def membersOf (data : List (α × Nat)) (c : Nat) : List (α × Nat) :=
  data.filter (fun x => x.2 == c)

/-- Number of documents of class `c` in a list. -/
def countLabel (l : List (α × Nat)) (c : Nat) : Nat :=
  l.countP (fun x => x.2 == c)

/-- Modelled from the spec: the stratified split processes the classes in
order.  A class with `m` documents, preceded by classes holding `cum`
documents in total, sends `(cum + m) * t / n - cum * t / n` of its
documents to the test partition (cumulative-rounding apportionment of the
target `t = nTest n`) and the rest to the train partition. -/
def splitGo (n t : Nat) (data : List (α × Nat)) :
    List Nat → Nat → List (α × Nat) × List (α × Nat)
  | [], _ => ([], [])
  | c :: cs, cum =>
    let m := (labelsOf data).count c
    let alloc := (cum + m) * t / n - cum * t / n
    let rest := splitGo n t data cs (cum + m)
    ((membersOf data c).drop alloc ++ rest.1,
     (membersOf data c).take alloc ++ rest.2)

/-- Modelled from the spec: the deterministic stratified 80/20 train/test
split of a labelled document list, returning `(train, test)`. -/
def trainTestSplit (data : List (α × Nat)) :
    List (α × Nat) × List (α × Nat) :=
  splitGo data.length (nTest data.length) data (classesOf data) 0

end Split

namespace BERT

/-- `class Config` (`BERT.py` lines 11-15). -/
structure Config where
  train_size : Nat
  test_size : Nat
  epochs : Nat
  learning_rate : ℚ

/-- `conf = Config()` (`BERT.py` line 17) with the class defaults. -/
def conf : Config :=
  { train_size := 1000, test_size := 400, epochs := 3,
    learning_rate := 2 / 100000 }

/-- Python slice `l[:k]`, the truncation used to build the subsets
(`BERT.py` lines 70-71, `SBERT.py` lines 33-36). -/
def truncate (l : List α) (k : Nat) : List α := l.take k

/-- `train_subset_size = 2000` (`SBERT.py` line 30). -/
def trainSubsetSize : Nat := 2000

/-- `test_subset_size = 400` (`SBERT.py` line 31). -/
def testSubsetSize : Nat := 400

/-- One torch call of pipeline A's training loop, as an observable event.
`batch` indexes the batch inside the epoch. -/
inductive TrainEvent where
  | epochStart (epoch : Nat)
  | forwardPass (batch : Nat)
  | lossCompute (batch : Nat)
  | backward (batch : Nat)
  | clipGradNorm (maxNorm : ℚ)
  | optimizerStep
  | schedulerStep
  | zeroGrad
deriving DecidableEq

/-- Whether an event is an epoch start. -/
def isEpochStart : TrainEvent → Bool
  | .epochStart _ => true
  | _ => false

/-- The body of `train_epoch`'s batch loop (`BERT.py` lines 95-116), in
program order: forward pass (the model call computes the loss), loss
extraction, backward pass, gradient clipping at `max_norm=1.0`, optimizer
step, scheduler step, gradient reset. -/
def batchTrace (b : Nat) : List TrainEvent :=
  [.forwardPass b, .lossCompute b, .backward b, .clipGradNorm 1,
   .optimizerStep, .schedulerStep, .zeroGrad]

/-- `train_epoch` iterates the batch body over the loader's batches
(`BERT.py` line 95). -/
def epochTrace (numBatches : Nat) : List TrainEvent :=
  (List.range numBatches).flatMap batchTrace

/-- The outer loop `for epoch in range(conf.epochs)` (`BERT.py` lines
143-146): each iteration starts an epoch and runs `train_epoch`; nothing
inspects a validation result or stops early. -/
def trainingTrace (epochs numBatches : Nat) : List TrainEvent :=
  (List.range epochs).flatMap
    (fun e => TrainEvent.epochStart e :: epochTrace numBatches)

/-- `NewsGroupDataset.__init__` state (`BERT.py` lines 41-47). -/
structure NewsGroupDataset where
  texts : List String
  labels : List Nat
  maxLength : Nat

/-- The dataset as constructed at `BERT.py` lines 70-71: `max_length`
keeps its default `512`. -/
def mkNewsGroupDataset (texts : List String) (labels : List Nat) :
    NewsGroupDataset :=
  { texts := texts, labels := labels, maxLength := 512 }

/-- The record returned by `__getitem__` (`BERT.py` lines 63-67). -/
structure Item where
  input_ids : List Nat
  attention_mask : List Nat
  label : Nat
deriving DecidableEq

/-- Modelled from the spec: the tokenizer call of `__getitem__`
(`BERT.py` lines 53-61) is external library code; with
`padding='max_length'` and `truncation=True` it truncates the raw token
ids to `maxLength` and pads with `padId` up to exactly `maxLength`, the
attention mask marking real tokens with `1` and padding with `0`. -/
def padTruncate (rawTokens : List Nat) (maxLength padId : Nat) :
    List Nat × List Nat :=
  let kept := rawTokens.take maxLength
  (kept ++ List.replicate (maxLength - kept.length) padId,
   List.replicate kept.length 1 ++ List.replicate (maxLength - kept.length) 0)

/-- `NewsGroupDataset.__getitem__` (`BERT.py` lines 50-67): tokenize the
`idx`-th text with padding and truncation and return it with the `idx`-th
label.  The raw tokenization is abstract (`tokenize`). -/
def NewsGroupDataset.getItem (ds : NewsGroupDataset)
    (tokenize : String → List Nat) (padId idx : Nat) : Item :=
  let enc := padTruncate (tokenize (ds.texts.getD idx "")) ds.maxLength padId
  { input_ids := enc.1, attention_mask := enc.2,
    label := ds.labels.getD idx 0 }

/-- The state `eval_model` threads: the model parameters and the two
accumulator lists (`BERT.py` lines 120-123). -/
structure EvalState (P : Type) where
  params : P
  predictions : List Nat
  true_labels : List Nat

/-- One iteration of `eval_model`'s batch loop (`BERT.py` lines 126-138):
compute the logits from the current parameters, take the argmax
predictions, extend both lists.  No call in the body writes the
parameters (the loop runs under `torch.no_grad()` in eval mode), so the
parameter component is passed through unchanged. -/
def evalBatch {P : Type} (forward : P → List Item → List Nat)
    (s : EvalState P) (batch : List Item) : EvalState P :=
  { params := s.params,
    predictions := s.predictions ++ forward s.params batch,
    true_labels := s.true_labels ++ batch.map (·.label) }

/-- `eval_model` (`BERT.py` lines 120-141). -/
def eval_model {P : Type} (forward : P → List Item → List Nat)
    (params : P) (batches : List (List Item)) : EvalState P :=
  batches.foldl (evalBatch forward) ⟨params, [], []⟩

/-- `DataLoader(test_dataset, batch_size=8, shuffle=False)`
(`BERT.py` line 74): the dataset cut into consecutive batches of at most
`k` items, in order. -/
def toBatches (k : Nat) (l : List α) : List (List α) :=
  if h : k = 0 ∨ l.isEmpty then []
  else l.take k :: toBatches k (l.drop k)
termination_by l.length
decreasing_by
  have h1 : k ≠ 0 := fun hk => h (Or.inl hk)
  have h2 : ¬ l.isEmpty = true := fun hl => h (Or.inr hl)
  have h3 : l ≠ [] := by
    intro he
    exact h2 (by rw [he]; rfl)
  have h4 : 0 < l.length := List.length_pos.mpr h3
  simp only [List.length_drop]
  omega

end BERT

namespace Report

/-- Python `sorted(set(l))`: the distinct elements in increasing order
(`BERT.py` line 155, `SBERT.py` line 100). -/
def sortedDistinct (l : List Nat) : List Nat := l.dedup.mergeSort

/-- `[dataset.target_names[i] for i in sorted(set(test_labels_used))]`
(`BERT.py` line 155, `SBERT.py` line 100): the class-name list handed to
`classification_report`. -/
def targetNames (names : List String) (testLabelsUsed : List Nat) :
    List String :=
  (sortedDistinct testLabelsUsed).map (fun i => names.getD i "")

/-- Modelled from the spec: sklearn's `classification_report` (external
library code) derives its label set from the distinct labels of the true
and predicted sequences together and pairs them with `target_names`
positionally; it succeeds precisely when one name per derived label is
supplied. -/
def reportSucceeds (trueLabels preds : List Nat) (names : List String) :
    Bool :=
  (sortedDistinct (trueLabels ++ preds)).length == names.length

end Report

namespace SBERT

theorem findDraw_pred {draws : Nat → Nat × Nat} {pred : Nat × Nat → Bool}
    {fuel i : Nat} {p : Nat × Nat} {j : Nat}
    (h : findDraw draws pred fuel i = some (p, j)) : pred p = true := by
  induction fuel generalizing i with
  | zero => simp [findDraw] at h
  | succ fuel ih =>
    rw [findDraw] at h
    by_cases hp : pred (draws i) = true
    · simp [hp] at h
      rw [← h.1]; exact hp
    · simp [hp] at h
      exact ih h

theorem findDraw_mem {draws : Nat → Nat × Nat} {pred : Nat × Nat → Bool}
    {fuel i : Nat} {p : Nat × Nat} {j : Nat}
    (h : findDraw draws pred fuel i = some (p, j)) :
    ∃ m, i ≤ m ∧ p = draws m := by
  induction fuel generalizing i with
  | zero => simp [findDraw] at h
  | succ fuel ih =>
    rw [findDraw] at h
    by_cases hp : pred (draws i) = true
    · simp [hp] at h
      exact ⟨i, le_refl i, h.1.symm⟩
    · simp [hp] at h
      obtain ⟨m, hm, hpm⟩ := ih h
      exact ⟨m, Nat.le_of_succ_le hm, hpm⟩

theorem findDraw_none {draws : Nat → Nat × Nat} {pred : Nat × Nat → Bool}
    (hnever : ∀ j, pred (draws j) = false) (fuel i : Nat) :
    findDraw draws pred fuel i = none := by
  induction fuel generalizing i with
  | zero => rfl
  | succ fuel ih =>
    rw [findDraw, hnever i]
    simp
    exact ih (i + 1)

theorem findDraw_isSome_aux {draws : Nat → Nat × Nat} {pred : Nat × Nat → Bool}
    {j : Nat} (hj : pred (draws j) = true) :
    ∀ d i, i ≤ j → j - i = d → (findDraw draws pred (d + 1) i).isSome := by
  intro d
  induction d with
  | zero =>
    intro i hij hd
    have hji : i = j := by omega
    subst hji
    rw [findDraw, hj]
    rfl
  | succ d ih =>
    intro i hij hd
    rw [findDraw]
    by_cases hp : pred (draws i) = true
    · rw [hp]; rfl
    · rw [if_neg (by simp [hp])]
      exact ih (i + 1) (by omega) (by omega)

theorem findDraw_isSome {draws : Nat → Nat × Nat} {pred : Nat × Nat → Bool}
    {j : Nat} (hj : pred (draws j) = true) :
    ∀ i, i ≤ j → (findDraw draws pred (j - i + 1) i).isSome := by
  intro i hij
  exact findDraw_isSome_aux hj (j - i) i hij rfl

/-- Soundness of every entry emitted by the pair loop: the index pair was
drawn from the stream, the texts are the two indexed documents, and the
label records which acceptance test the draw passed. -/
theorem createPairs_sound {texts : List String} {labels : List Nat}
    {draws : Nat → Nat × Nat} {fuel : Nat} :
    ∀ k i l, createPairs texts labels draws fuel k i = some l →
    ∀ pe ∈ l,
      (∃ m, pe.1 = draws m) ∧
      pe.2.texts = [texts.getD pe.1.1 "", texts.getD pe.1.2 ""] ∧
      ((pe.2.label = 1 ∧ samePred labels pe.1 = true) ∨
       (pe.2.label = 0 ∧ diffPred labels pe.1 = true)) := by
  intro k
  induction k with
  | zero =>
    intro i l h pe hpe
    rw [createPairs] at h
    simp only [Option.some_inj] at h
    subst h
    simp at hpe
  | succ k ih =>
    intro i l h pe hpe
    rw [createPairs] at h
    split at h
    · exact absurd h (by simp)
    next p₁ i₁ h₁ =>
      split at h
      · exact absurd h (by simp)
      next p₂ i₂ h₂ =>
        split at h
        · exact absurd h (by simp)
        next rest hrest =>
          simp only [Option.some_inj] at h
          subst h
          simp only [List.mem_cons] at hpe
          rcases hpe with hpe | hpe | hpe
          · subst hpe
            refine ⟨?_, ?_, ?_⟩
            · obtain ⟨m, _, hm⟩ := findDraw_mem h₁; exact ⟨m, hm⟩
            · rfl
            · exact Or.inl ⟨rfl, findDraw_pred h₁⟩
          · subst hpe
            refine ⟨?_, ?_, ?_⟩
            · obtain ⟨m, _, hm⟩ := findDraw_mem h₂; exact ⟨m, hm⟩
            · rfl
            · exact Or.inr ⟨rfl, findDraw_pred h₂⟩
          · exact ih i₂ rest hrest pe hpe

/-- The labels of the emitted list: `k` repetitions of `[1.0, 0.0]`. -/
theorem createPairs_labelSeq {texts : List String} {labels : List Nat}
    {draws : Nat → Nat × Nat} {fuel : Nat} :
    ∀ k i l, createPairs texts labels draws fuel k i = some l →
    l.map (·.2.label) = (List.replicate k [(1 : ℚ), 0]).flatten := by
  intro k
  induction k with
  | zero =>
    intro i l h
    rw [createPairs] at h
    simp only [Option.some_inj] at h
    subst h
    simp
  | succ k ih =>
    intro i l h
    rw [createPairs] at h
    split at h
    · exact absurd h (by simp)
    next p₁ i₁ h₁ =>
      split at h
      · exact absurd h (by simp)
      next p₂ i₂ h₂ =>
        split at h
        · exact absurd h (by simp)
        next rest hrest =>
          simp only [Option.some_inj] at h
          subst h
          simp only [List.map_cons, List.replicate_succ, List.flatten_cons]
          rw [ih i₂ rest hrest]
          rfl

theorem validDraw_iff (n : Nat) (p : Nat × Nat) :
    validDraw n p ↔ p.1 ≠ p.2 ∧ p.1 < n ∧ p.2 < n := Iff.rfl

theorem diffPred_false_of_const {labels : List Nat}
    (hconst : ∀ x ∈ labels, ∀ y ∈ labels, x = y) {p : Nat × Nat}
    (hp : validDraw labels.length p) : diffPred labels p = false := by
  obtain ⟨-, h1, h2⟩ := (validDraw_iff _ _).mp hp
  simp only [diffPred, Bool.not_eq_false', beq_iff_eq]
  rw [List.getD_eq_getElem _ _ h1, List.getD_eq_getElem _ _ h2]
  exact hconst _ (List.getElem_mem h1) _ (List.getElem_mem h2)

theorem samePred_false_of_pairwise {labels : List Nat}
    (hdist : labels.Pairwise (· ≠ ·)) {p : Nat × Nat}
    (hp : validDraw labels.length p) : samePred labels p = false := by
  obtain ⟨hne, h1, h2⟩ := (validDraw_iff _ _).mp hp
  simp only [samePred, beq_eq_false_iff_ne, ne_eq]
  rw [List.getD_eq_getElem _ _ h1, List.getD_eq_getElem _ _ h2]
  have hget := List.pairwise_iff_getElem.mp hdist
  rcases Nat.lt_or_ge p.1 p.2 with hlt | hge
  · exact hget p.1 p.2 h1 h2 hlt
  · have hlt : p.2 < p.1 := by omega
    exact (hget p.2 p.1 h2 h1 hlt).symm

/-- **C1.** Every pair example emitted by the pipeline-B pair sampler on a
successful draw with label `1.0` joins two documents with equal class
labels, and every example with label `0.0` joins two documents with
differing class labels. -/
theorem c1_pair_label_relationship (texts : List String) (labels : List Nat)
    (draws : Nat → Nat × Nat) (fuel k i : Nat)
    (l : List ((Nat × Nat) × InputExample))
    (h : createPairs texts labels draws fuel k i = some l) :
    ∀ pe ∈ l,
      (pe.2.label = 1 → labels.getD pe.1.1 0 = labels.getD pe.1.2 0) ∧
      (pe.2.label = 0 → labels.getD pe.1.1 0 ≠ labels.getD pe.1.2 0) := by
  intro pe hpe
  obtain ⟨-, -, hcase⟩ := createPairs_sound k i l h pe hpe
  rcases hcase with ⟨hl, hp⟩ | ⟨hl, hp⟩
  · simp only [samePred, beq_iff_eq] at hp
    refine ⟨fun _ => hp, fun h0 => ?_⟩
    rw [hl] at h0
    norm_num at h0
  · simp only [diffPred, Bool.not_eq_true', beq_eq_false_iff_ne, ne_eq] at hp
    refine ⟨fun h1 => ?_, fun _ => hp⟩
    rw [hl] at h1
    norm_num at h1

theorem c1_pair_label_relationship_witness :
    createPairs ["a", "b", "c"] [0, 0, 1]
        (fun j => if j = 0 then (0, 1) else (0, 2)) 2 1 0 =
      some [((0, 1), ⟨["a", "b"], 1⟩), ((0, 2), ⟨["a", "c"], 0⟩)] ∧
    ∀ pe ∈ [((0, 1), (⟨["a", "b"], (1 : ℚ)⟩ : InputExample)),
            ((0, 2), ⟨["a", "c"], 0⟩)],
      (pe.2.label = 1 → [0, 0, 1].getD pe.1.1 0 = [0, 0, 1].getD pe.1.2 0) ∧
      (pe.2.label = 0 → [0, 0, 1].getD pe.1.1 0 ≠ [0, 0, 1].getD pe.1.2 0) :=
  ⟨rfl, c1_pair_label_relationship ["a", "b", "c"] [0, 0, 1]
    (fun j => if j = 0 then (0, 1) else (0, 2)) 2 1 0 _ rfl⟩

/-- **C10.** Every draw accepted by the pair sampler consists of two
distinct document indices of the training subset (the stream obeys the
`replace=False` contract), so no emitted example pairs a document with
itself; and the existence of any valid draw forces the subset to hold at
least two documents. -/
theorem c10_distinct_indices (texts : List String) (labels : List Nat)
    (draws : Nat → Nat × Nat) (fuel k i : Nat)
    (l : List ((Nat × Nat) × InputExample))
    (hv : ValidStream labels.length draws)
    (h : createPairs texts labels draws fuel k i = some l) :
    (∀ pe ∈ l, pe.1.1 ≠ pe.1.2 ∧
      pe.1.1 < labels.length ∧ pe.1.2 < labels.length) ∧
    2 ≤ labels.length := by
  constructor
  · intro pe hpe
    obtain ⟨⟨m, hm⟩, -, -⟩ := createPairs_sound k i l h pe hpe
    rw [hm]
    exact (validDraw_iff _ _).mp (hv m)
  · obtain ⟨hne, h1, h2⟩ := (validDraw_iff _ _).mp (hv 0)
    omega

theorem c10_distinct_indices_witness :
    ValidStream ([0, 0, 1] : List Nat).length
      (fun j => if j = 0 then (0, 1) else (0, 2)) ∧
    ((∀ pe ∈ [((0, 1), (⟨["a", "b"], (1 : ℚ)⟩ : InputExample)),
              ((0, 2), ⟨["a", "c"], 0⟩)],
        pe.1.1 ≠ pe.1.2 ∧ pe.1.1 < ([0, 0, 1] : List Nat).length ∧
          pe.1.2 < ([0, 0, 1] : List Nat).length) ∧
      2 ≤ ([0, 0, 1] : List Nat).length) := by
  have hv : ValidStream ([0, 0, 1] : List Nat).length
      (fun j => if j = 0 then (0, 1) else (0, 2)) := by
    intro j
    by_cases hj : j = 0
    · simp [hj, validDraw]
    · simp [hj, validDraw]
  exact ⟨hv, c10_distinct_indices ["a", "b", "c"] [0, 0, 1]
    (fun j => if j = 0 then (0, 1) else (0, 2)) 2 1 0 _ hv rfl⟩

/-- **C2.** The rejection loops are unbounded: over any stream of valid
draws, if all labels are equal the different-class loop finds no
accepting draw at any fuel, and if all labels are pairwise distinct the
same-class loop finds no accepting draw at any fuel; conversely, when the
subset holds a same-label pair and a differing-label pair and the stream
is fair, each loop accepts after finitely many redraws from any start. -/
theorem c2_unbounded_rejection (labels : List Nat) (draws : Nat → Nat × Nat)
    (hv : ValidStream labels.length draws) :
    ((∀ x ∈ labels, ∀ y ∈ labels, x = y) →
      ∀ fuel i, findDraw draws (diffPred labels) fuel i = none) ∧
    (labels.Pairwise (· ≠ ·) →
      ∀ fuel i, findDraw draws (samePred labels) fuel i = none) ∧
    (FairStream labels.length draws → HasSamePair labels →
      HasDiffPair labels → ∀ i,
        (∃ fuel, (findDraw draws (samePred labels) fuel i).isSome) ∧
        (∃ fuel, (findDraw draws (diffPred labels) fuel i).isSome)) := by
  refine ⟨?_, ?_, ?_⟩
  · intro hconst fuel i
    exact findDraw_none (fun j => diffPred_false_of_const hconst (hv j)) fuel i
  · intro hdist fuel i
    exact findDraw_none (fun j => samePred_false_of_pairwise hdist (hv j)) fuel i
  · intro hfair hsame hdiff i
    constructor
    · obtain ⟨a, b, ha, hb, hab, heq⟩ := hsame
      obtain ⟨j, hij, hdj⟩ :=
        hfair (a, b) ((validDraw_iff _ _).mpr ⟨hab, ha, hb⟩) i
      have hpj : samePred labels (draws j) = true := by
        rw [hdj]
        simp only [samePred, beq_iff_eq]
        exact heq
      exact ⟨j - i + 1, findDraw_isSome hpj i hij⟩
    · obtain ⟨a, b, ha, hb, hab, hne⟩ := hdiff
      obtain ⟨j, hij, hdj⟩ :=
        hfair (a, b) ((validDraw_iff _ _).mpr ⟨hab, ha, hb⟩) i
      have hpj : diffPred labels (draws j) = true := by
        rw [hdj]
        simp only [diffPred, Bool.not_eq_true', beq_eq_false_iff_ne, ne_eq]
        exact hne
      exact ⟨j - i + 1, findDraw_isSome hpj i hij⟩

theorem c2_unbounded_rejection_witness :
    ValidStream ([0, 1] : List Nat).length (fun _ => (0, 1)) ∧
    (((∀ x ∈ ([0, 1] : List Nat), ∀ y ∈ ([0, 1] : List Nat), x = y) →
        ∀ fuel i, findDraw (fun _ => (0, 1)) (diffPred [0, 1]) fuel i = none) ∧
      (([0, 1] : List Nat).Pairwise (· ≠ ·) →
        ∀ fuel i, findDraw (fun _ => (0, 1)) (samePred [0, 1]) fuel i = none) ∧
      (FairStream ([0, 1] : List Nat).length (fun _ => (0, 1)) →
        HasSamePair [0, 1] → HasDiffPair [0, 1] → ∀ i,
          (∃ fuel,
            (findDraw (fun _ => (0, 1)) (samePred [0, 1]) fuel i).isSome) ∧
          (∃ fuel,
            (findDraw (fun _ => (0, 1)) (diffPred [0, 1]) fuel i).isSome))) := by
  have hv : ValidStream ([0, 1] : List Nat).length (fun _ => (0, 1)) := by
    intro j
    show validDraw 2 (0, 1)
    decide
  exact ⟨hv, c2_unbounded_rejection [0, 1] _ hv⟩

theorem labelSeq_length (n : Nat) :
    ((List.replicate n [(1 : ℚ), 0]).flatten).length = 2 * n := by
  induction n with
  | zero => rfl
  | succ n ih =>
    simp only [List.replicate_succ, List.flatten_cons, List.length_append, ih]
    simp
    omega

theorem labelSeq_countP_one (n : Nat) :
    ((List.replicate n [(1 : ℚ), 0]).flatten).countP (· == 1) = n := by
  induction n with
  | zero => rfl
  | succ n ih =>
    simp only [List.replicate_succ, List.flatten_cons, List.countP_append, ih]
    norm_num [List.countP_cons]
    omega

theorem labelSeq_countP_zero (n : Nat) :
    ((List.replicate n [(1 : ℚ), 0]).flatten).countP (· == 0) = n := by
  induction n with
  | zero => rfl
  | succ n ih =>
    simp only [List.replicate_succ, List.flatten_cons, List.countP_append, ih]
    norm_num [List.countP_cons]
    omega

/-- **C7.** On a successful run the pair loop produces exactly `numPairs`
same-class examples (label `1.0`) and exactly `numPairs` different-class
examples (label `0.0`), `2 * numPairs` examples in total, and the label
sequence is `numPairs` repetitions of `[1.0, 0.0]`: same-class and
different-class examples strictly alternate. -/
theorem c7_fixed_pair_counts (texts : List String) (labels : List Nat)
    (draws : Nat → Nat × Nat) (fuel : Nat) (l : List InputExample)
    (h : trainExamples texts labels draws fuel numPairs = some l) :
    l.length = 2 * numPairs ∧
    l.countP (fun e => e.label == 1) = numPairs ∧
    l.countP (fun e => e.label == 0) = numPairs ∧
    l.map (·.label) = (List.replicate numPairs [(1 : ℚ), 0]).flatten := by
  unfold trainExamples at h
  rcases hc : createPairs texts labels draws fuel numPairs 0 with _ | l0
  · rw [hc] at h; simp at h
  · rw [hc] at h
    simp only [Option.map_some', Option.some_inj] at h
    subst h
    have hm : ((l0.map (·.2)).map (·.label)) =
        (List.replicate numPairs [(1 : ℚ), 0]).flatten := by
      rw [List.map_map]
      exact createPairs_labelSeq numPairs 0 l0 hc
    refine ⟨?_, ?_, ?_, hm⟩
    · have := congrArg List.length hm
      rw [List.length_map, labelSeq_length] at this
      exact this
    · have := congrArg (List.countP (· == (1 : ℚ))) hm
      rw [List.countP_map, labelSeq_countP_one] at this
      exact this
    · have := congrArg (List.countP (· == (0 : ℚ))) hm
      rw [List.countP_map, labelSeq_countP_zero] at this
      exact this

theorem findDraw_succ (draws : Nat → Nat × Nat) (pred : Nat × Nat → Bool)
    (fuel i : Nat) :
    findDraw draws pred (fuel + 1) i =
      if pred (draws i) then some (draws i, i + 1)
      else findDraw draws pred fuel (i + 1) := rfl

theorem c7RunPairs :
    ∀ k i, i % 2 = 0 →
      createPairs ["a", "b", "c"] [0, 0, 1]
          (fun j => if j % 2 = 0 then (0, 1) else (0, 2)) 1 k i =
        some ((List.replicate k
          [(((0 : Nat), (1 : Nat)), (⟨["a", "b"], 1⟩ : InputExample)),
           ((0, 2), ⟨["a", "c"], 0⟩)]).flatten) := by
  intro k
  induction k with
  | zero => intro i hi; rfl
  | succ k ih =>
    intro i hi
    have h1 : (i + 1) % 2 = 1 := by omega
    have h2 : (i + 2) % 2 = 0 := by omega
    have hs : findDraw (fun j => if j % 2 = 0 then ((0 : Nat), (1 : Nat)) else (0, 2))
        (samePred [0, 0, 1]) 1 i = some ((0, 1), i + 1) := by
      rw [findDraw_succ]
      simp [hi, samePred]
    have hd : findDraw (fun j => if j % 2 = 0 then ((0 : Nat), (1 : Nat)) else (0, 2))
        (diffPred [0, 0, 1]) 1 (i + 1) = some ((0, 2), i + 2) := by
      rw [findDraw_succ]
      simp [h1, diffPred]
    rw [createPairs]
    simp only [hs, hd, ih (i + 2) h2, List.replicate_succ, List.flatten_cons]
    rfl

theorem c7RunExamples :
    trainExamples ["a", "b", "c"] [0, 0, 1]
        (fun j => if j % 2 = 0 then (0, 1) else (0, 2)) 1 numPairs =
      some ((List.replicate numPairs
        [(⟨["a", "b"], 1⟩ : InputExample), ⟨["a", "c"], 0⟩]).flatten) := by
  unfold trainExamples
  rw [c7RunPairs numPairs 0 rfl]
  simp only [Option.map_some']
  rw [List.map_flatten, List.map_replicate]
  rfl

theorem c7_fixed_pair_counts_witness :
    trainExamples ["a", "b", "c"] [0, 0, 1]
        (fun j => if j % 2 = 0 then (0, 1) else (0, 2)) 1 numPairs =
      some ((List.replicate numPairs
        [(⟨["a", "b"], 1⟩ : InputExample), ⟨["a", "c"], 0⟩]).flatten) ∧
    (((List.replicate numPairs
        [(⟨["a", "b"], 1⟩ : InputExample), ⟨["a", "c"], 0⟩]).flatten).length =
          2 * numPairs ∧
      ((List.replicate numPairs
        [(⟨["a", "b"], 1⟩ : InputExample), ⟨["a", "c"], 0⟩]).flatten).countP
          (fun e => e.label == 1) = numPairs ∧
      ((List.replicate numPairs
        [(⟨["a", "b"], 1⟩ : InputExample), ⟨["a", "c"], 0⟩]).flatten).countP
          (fun e => e.label == 0) = numPairs ∧
      ((List.replicate numPairs
        [(⟨["a", "b"], 1⟩ : InputExample), ⟨["a", "c"], 0⟩]).flatten).map
          (·.label) = (List.replicate numPairs [(1 : ℚ), 0]).flatten) :=
  ⟨c7RunExamples, c7_fixed_pair_counts ["a", "b", "c"] [0, 0, 1]
    (fun j => if j % 2 = 0 then (0, 1) else (0, 2)) 1 _ c7RunExamples⟩

end SBERT

namespace Split

theorem length_membersOf (data : List (α × Nat)) (c : Nat) :
    (membersOf data c).length = (labelsOf data).count c := by
  simp only [membersOf, labelsOf, List.count, ← List.countP_eq_length_filter,
    List.countP_map]
  rfl

theorem nTest_le (n : Nat) : nTest n ≤ n := by
  unfold nTest
  omega

theorem alloc_le {n : Nat} (t cum m : Nat) (hn : 0 < n) (ht : t ≤ n) :
    (cum + m) * t / n - cum * t / n ≤ m := by
  have h1 : (cum + m) * t ≤ cum * t + n * m := by
    have h2 : m * t ≤ n * m := by
      calc m * t ≤ m * n := Nat.mul_le_mul_left m ht
        _ = n * m := Nat.mul_comm m n
    calc (cum + m) * t = cum * t + m * t := by ring
      _ ≤ cum * t + n * m := by omega
  have h3 : (cum + m) * t / n ≤ (cum * t + n * m) / n := Nat.div_le_div_right h1
  rw [Nat.add_mul_div_left _ _ hn] at h3
  omega

theorem div_add_le (a b : Nat) {c : Nat} (hc : 0 < c) :
    a / c + b / c ≤ (a + b) / c := by
  rw [Nat.add_div hc]
  omega

theorem div_add_ge (a b : Nat) {c : Nat} (hc : 0 < c) :
    (a + b) / c ≤ a / c + b / c + 1 := by
  rw [Nat.add_div hc]
  have : (if c ≤ a % c + b % c then 1 else 0) ≤ 1 := by
    split <;> omega
  omega

theorem alloc_bounds {n : Nat} (t cum m : Nat) (hn : 0 < n) :
    m * t / n ≤ (cum + m) * t / n - cum * t / n ∧
    (cum + m) * t / n - cum * t / n ≤ m * t / n + 1 := by
  have he : (cum + m) * t = cum * t + m * t := by ring
  have h1 := div_add_le (cum * t) (m * t) hn
  have h2 := div_add_ge (cum * t) (m * t) hn
  have hmono : cum * t / n ≤ (cum * t + m * t) / n :=
    Nat.div_le_div_right (by omega)
  rw [he]
  omega

theorem splitGo_lengths {n : Nat} (t : Nat) (data : List (α × Nat))
    (hn : 0 < n) (ht : t ≤ n) :
    ∀ cs cum,
      (splitGo n t data cs cum).1.length + (splitGo n t data cs cum).2.length =
        (cs.map fun c => (labelsOf data).count c).sum ∧
      (splitGo n t data cs cum).2.length =
        (cum + (cs.map fun c => (labelsOf data).count c).sum) * t / n -
          cum * t / n := by
  intro cs
  induction cs with
  | nil =>
    intro cum
    simp [splitGo]
  | cons c cs ih =>
    intro cum
    obtain ⟨ih1, ih2⟩ := ih (cum + (labelsOf data).count c)
    simp only [splitGo, List.map_cons, List.sum_cons, List.length_append,
      List.length_take, List.length_drop, length_membersOf]
    set m := (labelsOf data).count c with hm
    set S := (cs.map fun c => (labelsOf data).count c).sum with hS
    have halloc : (cum + m) * t / n - cum * t / n ≤ m := alloc_le t cum m hn ht
    have hmono1 : cum * t / n ≤ (cum + m) * t / n :=
      Nat.div_le_div_right (Nat.mul_le_mul_right t (by omega))
    have hassoc : cum + m + S = cum + (m + S) := by omega
    have hmono2 : (cum + m) * t / n ≤ (cum + (m + S)) * t / n := by
      rw [← hassoc]
      exact Nat.div_le_div_right (Nat.mul_le_mul_right t (by omega))
    rw [hassoc] at ih2
    omega

theorem splitGo_test_labels (n t : Nat) (data : List (α × Nat)) :
    ∀ cs cum x, x ∈ (splitGo n t data cs cum).2 → x.2 ∈ cs := by
  intro cs
  induction cs with
  | nil =>
    intro cum x hx
    simp [splitGo] at hx
  | cons c cs ih =>
    intro cum x hx
    simp only [splitGo, List.mem_append] at hx
    rcases hx with hx | hx
    · have hmem : x ∈ membersOf data c := List.mem_of_mem_take hx
      rw [membersOf] at hmem
      have hc : x.2 = c := by
        have := List.of_mem_filter hmem
        simpa using this
      simp [hc]
    · exact List.mem_cons_of_mem _ (ih _ x hx)

theorem countP_take_membersOf (data : List (α × Nat)) (c a : Nat)
    (ha : a ≤ (membersOf data c).length) :
    ((membersOf data c).take a).countP (fun x => x.2 == c) = a := by
  have hall : ∀ x ∈ (membersOf data c).take a, (x.2 == c) = true := by
    intro x hx
    have hx2 : x ∈ membersOf data c := List.mem_of_mem_take hx
    rw [membersOf] at hx2
    have h3 := List.of_mem_filter hx2
    exact h3
  rw [List.countP_eq_length.mpr hall, List.length_take]
  omega

theorem splitGo_countLabel {n : Nat} (t : Nat) (data : List (α × Nat))
    (hn : 0 < n) (ht : t ≤ n) :
    ∀ cs cum, cs.Nodup → ∀ c ∈ cs,
      ∃ cum0, countLabel (splitGo n t data cs cum).2 c =
        (cum0 + (labelsOf data).count c) * t / n - cum0 * t / n := by
  intro cs
  induction cs with
  | nil =>
    intro cum _ c hc
    simp at hc
  | cons c0 cs ih =>
    intro cum hnd c hc
    have hnd0 : c0 ∉ cs := (List.nodup_cons.mp hnd).1
    have hndtl : cs.Nodup := (List.nodup_cons.mp hnd).2
    simp only [splitGo, countLabel, List.countP_append]
    set m := (labelsOf data).count c0 with hm
    rcases List.mem_cons.mp hc with rfl | hc
    · refine ⟨cum, ?_⟩
      have h1 : ((membersOf data c).take ((cum + m) * t / n - cum * t / n)).countP
          (fun x => x.2 == c) = (cum + m) * t / n - cum * t / n := by
        apply countP_take_membersOf
        rw [length_membersOf]
        exact alloc_le t cum m hn ht
      have h2 : (splitGo n t data cs (cum + m)).2.countP (fun x => x.2 == c) = 0 := by
        rw [List.countP_eq_zero]
        intro x hx
        have hxl := splitGo_test_labels n t data cs (cum + m) x hx
        simp only [beq_iff_eq]
        intro heq
        rw [heq] at hxl
        exact hnd0 hxl
      rw [h1, h2]
      rw [← hm]
      omega
    · have hne : c ≠ c0 := fun h => hnd0 (h ▸ hc)
      obtain ⟨cum0, hcum0⟩ := ih (cum + m) hndtl c hc
      refine ⟨cum0, ?_⟩
      have h1 : ((membersOf data c0).take ((cum + m) * t / n - cum * t / n)).countP
          (fun x => x.2 == c) = 0 := by
        rw [List.countP_eq_zero]
        intro x hx
        have hx2 : x ∈ membersOf data c0 := List.mem_of_mem_take hx
        rw [membersOf] at hx2
        have : x.2 = c0 := by
          have := List.of_mem_filter hx2
          simpa using this
        simp only [beq_iff_eq, this]
        exact fun h => hne h.symm
      rw [h1]
      rw [countLabel] at hcum0
      rw [hcum0]
      omega

/-- **C3.** The startup train/test split partitions the document list: the
train and test sizes sum to the document count, the test partition holds
`⌈0.2 · n⌉` documents (train the remaining 80%), each class's test count
is within one of its exactly proportional share (stratification), and the
split is a deterministic function of its input (the random seed is the
fixed constant 42), hence identical across runs on the same input. -/
theorem c3_stratified_split (data : List (String × Nat)) :
    (trainTestSplit data).1.length + (trainTestSplit data).2.length =
      data.length ∧
    (trainTestSplit data).2.length = nTest data.length ∧
    (∀ c ∈ classesOf data,
      (labelsOf data).count c * nTest data.length / data.length ≤
        countLabel (trainTestSplit data).2 c ∧
      countLabel (trainTestSplit data).2 c ≤
        (labelsOf data).count c * nTest data.length / data.length + 1) ∧
    (∀ d2 : List (String × Nat), d2 = data →
      trainTestSplit d2 = trainTestSplit data) := by
  rcases Nat.eq_zero_or_pos data.length with hn | hn
  · have hdata : data = [] := List.length_eq_zero.mp hn
    subst hdata
    refine ⟨rfl, rfl, ?_, ?_⟩
    · intro c hc
      simp [classesOf, labelsOf] at hc
    · intro d2 h2
      rw [h2]
  · have ht : nTest data.length ≤ data.length := nTest_le data.length
    have hsum : ((classesOf data).map fun c => (labelsOf data).count c).sum =
        data.length := by
      have := List.sum_map_count_dedup_eq_length (labelsOf data)
      rw [classesOf]
      rw [this]
      simp [labelsOf]
    obtain ⟨hlen, htest⟩ :=
      splitGo_lengths (nTest data.length) data hn ht (classesOf data) 0
    refine ⟨?_, ?_, ?_, ?_⟩
    · rw [trainTestSplit]
      rw [hlen, hsum]
    · rw [trainTestSplit, htest, hsum]
      rw [Nat.zero_add, Nat.zero_mul, Nat.zero_div, Nat.sub_zero]
      exact Nat.mul_div_cancel_left _ hn
    · intro c hc
      obtain ⟨cum0, hcum0⟩ :=
        splitGo_countLabel (nTest data.length) data hn ht (classesOf data) 0
          (List.nodup_dedup _) c hc
      rw [trainTestSplit, hcum0]
      exact alloc_bounds (nTest data.length) cum0 ((labelsOf data).count c) hn
    · intro d2 h2
      rw [h2]

end Split

namespace BERT

/-- **C4.** The truncated subsets never exceed the configured sizes
(pipeline A: `Config.train_size = 1000` training and
`Config.test_size = 400` test documents; pipeline B:
`train_subset_size = 2000` and `test_subset_size = 400`), and each subset
is the prefix of its split of length `min(configured size, split length)`. -/
theorem c4_subset_truncation (trainA testA trainB testB : List String) :
    ((truncate trainA conf.train_size).length =
        min conf.train_size trainA.length ∧
      (truncate trainA conf.train_size).length ≤ 1000 ∧
      truncate trainA conf.train_size <+: trainA) ∧
    ((truncate testA conf.test_size).length =
        min conf.test_size testA.length ∧
      (truncate testA conf.test_size).length ≤ 400 ∧
      truncate testA conf.test_size <+: testA) ∧
    ((truncate trainB trainSubsetSize).length =
        min trainSubsetSize trainB.length ∧
      (truncate trainB trainSubsetSize).length ≤ 2000 ∧
      truncate trainB trainSubsetSize <+: trainB) ∧
    ((truncate testB testSubsetSize).length =
        min testSubsetSize testB.length ∧
      (truncate testB testSubsetSize).length ≤ 400 ∧
      truncate testB testSubsetSize <+: testB) := by
  refine ⟨⟨?_, ?_, ?_⟩, ⟨?_, ?_, ?_⟩, ⟨?_, ?_, ?_⟩, ⟨?_, ?_, ?_⟩⟩
  · simp [truncate]
  · simp only [truncate, List.length_take]
    exact Nat.min_le_left _ _
  · exact ⟨trainA.drop conf.train_size, List.take_append_drop _ _⟩
  · simp [truncate]
  · simp only [truncate, List.length_take]
    exact Nat.min_le_left _ _
  · exact ⟨testA.drop conf.test_size, List.take_append_drop _ _⟩
  · simp [truncate]
  · simp only [truncate, List.length_take]
    exact Nat.min_le_left _ _
  · exact ⟨trainB.drop trainSubsetSize, List.take_append_drop _ _⟩
  · simp [truncate]
  · simp only [truncate, List.length_take]
    exact Nat.min_le_left _ _
  · exact ⟨testB.drop testSubsetSize, List.take_append_drop _ _⟩

theorem epochTrace_countP_epochStart (nb : Nat) :
    (epochTrace nb).countP isEpochStart = 0 := by
  rw [List.countP_eq_zero]
  intro x hx
  rw [epochTrace] at hx
  simp only [List.mem_flatMap, List.mem_range] at hx
  obtain ⟨b, -, hb⟩ := hx
  rw [batchTrace] at hb
  simp only [List.mem_cons, List.not_mem_nil, or_false] at hb
  rcases hb with rfl | rfl | rfl | rfl | rfl | rfl | rfl <;> simp [isEpochStart]

theorem trainingTrace_countP_epochStart (epochs nb : Nat) :
    (trainingTrace epochs nb).countP isEpochStart = epochs := by
  induction epochs with
  | zero => rfl
  | succ e ih =>
    rw [trainingTrace, List.range_succ, List.flatMap_append, List.countP_append]
    rw [trainingTrace] at ih
    rw [ih]
    simp only [List.flatMap_cons, List.flatMap_nil, List.append_nil,
      List.countP_cons, epochTrace_countP_epochStart nb]
    simp [isEpochStart]

theorem trainingTrace_clipNorm (epochs nb : Nat) :
    ∀ c : ℚ, TrainEvent.clipGradNorm c ∈ trainingTrace epochs nb → c = 1 := by
  intro c hc
  rw [trainingTrace] at hc
  simp only [List.mem_flatMap, List.mem_range, List.mem_cons] at hc
  obtain ⟨e, -, hc⟩ := hc
  rcases hc with hc | hc
  · exact absurd hc (by simp)
  · rw [epochTrace] at hc
    simp only [List.mem_flatMap, List.mem_range] at hc
    obtain ⟨b, -, hb⟩ := hc
    rw [batchTrace] at hb
    simp only [List.mem_cons, List.not_mem_nil, or_false] at hb
    rcases hb with hb | hb | hb | hb | hb | hb | hb <;> simp_all

theorem batchTrace_infix_trainingTrace (epochs nb e b : Nat)
    (he : e < epochs) (hb : b < nb) :
    batchTrace b <:+: trainingTrace epochs nb := by
  have h1 : batchTrace b <:+: epochTrace nb := by
    rw [epochTrace, List.flatMap_def]
    exact List.infix_of_mem_flatten
      (List.mem_map_of_mem _ (List.mem_range.mpr hb))
  have h2 : epochTrace nb <:+: TrainEvent.epochStart e :: epochTrace nb :=
    (List.suffix_cons _ _).isInfix
  have h3 : TrainEvent.epochStart e :: epochTrace nb <:+:
      trainingTrace epochs nb := by
    rw [trainingTrace, List.flatMap_def]
    exact List.infix_of_mem_flatten
      (List.mem_map_of_mem _ (List.mem_range.mpr he))
  exact h1.trans (h2.trans h3)

/-- **C5.** Pipeline A's training loop: per batch the trace is exactly the
sequence forward pass, loss computation, backward pass, gradient clipping
at the fixed norm `1.0`, optimizer step, scheduler step, gradient reset,
and that seven-event block occurs contiguously for every batch of every
epoch; the outer loop starts exactly `Config.epochs = 3` epochs, every
clipping event uses norm `1.0`, and no event depends on a validation
result (the trace is a fixed function of the epoch and batch counts). -/
theorem c5_training_loop (numBatches : Nat) :
    conf.epochs = 3 ∧
    (trainingTrace conf.epochs numBatches).countP isEpochStart = 3 ∧
    (∀ b, batchTrace b =
      [.forwardPass b, .lossCompute b, .backward b, .clipGradNorm 1,
       .optimizerStep, .schedulerStep, .zeroGrad]) ∧
    (∀ e < conf.epochs, ∀ b < numBatches,
      batchTrace b <:+: trainingTrace conf.epochs numBatches) ∧
    (∀ c : ℚ, TrainEvent.clipGradNorm c ∈
      trainingTrace conf.epochs numBatches → c = 1) := by
  refine ⟨rfl, trainingTrace_countP_epochStart 3 numBatches, fun b => rfl,
    ?_, trainingTrace_clipNorm 3 numBatches⟩
  intro e he b hb
  exact batchTrace_infix_trainingTrace 3 numBatches e b he hb

/-- **C8.** For every index `idx` within the dataset, `__getitem__`
returns a record whose `input_ids` and `attention_mask` have length
exactly `max_length` (`512`, by padding to `max_length` after
truncation), and whose `label` equals the stored label at `idx`. -/
theorem c8_getitem_shape (texts : List String) (labels : List Nat)
    (tokenize : String → List Nat) (padId idx : Nat)
    (h : idx < texts.length) (h2 : idx < labels.length) :
    ((mkNewsGroupDataset texts labels).getItem tokenize padId
      idx).input_ids.length = 512 ∧
    ((mkNewsGroupDataset texts labels).getItem tokenize padId
      idx).attention_mask.length = 512 ∧
    ((mkNewsGroupDataset texts labels).getItem tokenize padId idx).label =
      labels.get ⟨idx, h2⟩ := by
  have hk : ((tokenize (texts.getD idx "")).take 512).length ≤ 512 := by
    rw [List.length_take]
    exact Nat.min_le_left _ _
  refine ⟨?_, ?_, ?_⟩
  · simp only [mkNewsGroupDataset, NewsGroupDataset.getItem, padTruncate,
      List.length_append, List.length_replicate]
    omega
  · simp only [mkNewsGroupDataset, NewsGroupDataset.getItem, padTruncate,
      List.length_append, List.length_replicate]
    omega
  · simp only [mkNewsGroupDataset, NewsGroupDataset.getItem]
    rw [List.getD_eq_getElem _ _ h2, List.get_eq_getElem]

theorem c8_getitem_shape_witness :
    0 < 1 ∧
    ((mkNewsGroupDataset ["hi"] [7]).getItem (fun _ => [1, 2, 3]) 0
      0).input_ids.length = 512 ∧
    ((mkNewsGroupDataset ["hi"] [7]).getItem (fun _ => [1, 2, 3]) 0
      0).attention_mask.length = 512 ∧
    ((mkNewsGroupDataset ["hi"] [7]).getItem (fun _ => [1, 2, 3]) 0
      0).label = 7 := by
  obtain ⟨h1, h2, h3⟩ :=
    c8_getitem_shape ["hi"] [7] (fun _ => [1, 2, 3]) 0 0
      (by decide) (by decide)
  exact ⟨by decide, h1, h2, h3⟩

theorem eval_model_foldl {P : Type} (forward : P → List Item → List Nat)
    (hf : ∀ p b, (forward p b).length = b.length) :
    ∀ (batches : List (List Item)) (s : EvalState P),
      (batches.foldl (evalBatch forward) s).params = s.params ∧
      (batches.foldl (evalBatch forward) s).true_labels =
        s.true_labels ++ batches.flatten.map (·.label) ∧
      (batches.foldl (evalBatch forward) s).predictions.length =
        s.predictions.length + batches.flatten.length := by
  intro batches
  induction batches with
  | nil =>
    intro s
    simp
  | cons b bs ih =>
    intro s
    simp only [List.foldl_cons, List.flatten_cons]
    obtain ⟨ih1, ih2, ih3⟩ := ih (evalBatch forward s b)
    refine ⟨?_, ?_, ?_⟩
    · rw [ih1]
      rfl
    · rw [ih2]
      simp [evalBatch]
    · rw [ih3]
      simp [evalBatch, List.length_append, hf]
      omega

theorem flatten_toBatches (k : Nat) (l : List Item) (hk : 0 < k) :
    (toBatches k l).flatten = l := by
  induction l using toBatches.induct k with
  | case1 l h =>
    rw [toBatches, dif_pos h]
    rcases h with h | h
    · omega
    · rw [List.flatten_nil]
      exact (List.isEmpty_iff.mp h).symm
  | case2 l h ih =>
    rw [toBatches, dif_neg h]
    rw [List.flatten_cons, ih]
    exact List.take_append_drop k l

/-- **C9.** `eval_model` is read-only evaluation: the model parameters it
was given come back unchanged (its batch body only reads them), and it
returns prediction and true-label lists of equal length, that length
being the number of examples in the evaluated dataset, with the
true-label list equal to the dataset's labels in iteration order
(the test loader batches the dataset in order without shuffling). -/
theorem c9_eval_model (P : Type) (forward : P → List Item → List Nat)
    (params : P) (ds : List Item)
    (hf : ∀ p b, (forward p b).length = b.length) :
    (eval_model forward params (toBatches 8 ds)).params = params ∧
    (eval_model forward params (toBatches 8 ds)).predictions.length =
      (eval_model forward params (toBatches 8 ds)).true_labels.length ∧
    (eval_model forward params (toBatches 8 ds)).true_labels.length =
      ds.length ∧
    (eval_model forward params (toBatches 8 ds)).true_labels =
      ds.map (·.label) := by
  obtain ⟨h1, h2, h3⟩ :=
    eval_model_foldl forward hf (toBatches 8 ds) ⟨params, [], []⟩
  have hfl : (toBatches 8 ds).flatten = ds := flatten_toBatches 8 ds (by omega)
  rw [hfl] at h2 h3
  rw [eval_model]
  simp only [List.nil_append] at h2
  refine ⟨h1, ?_, ?_, h2⟩
  · rw [h3, h2, List.length_map]
    simp
  · rw [h2, List.length_map]

theorem c9_eval_model_witness :
    (eval_model (fun (_ : Nat) (b : List Item) => b.map (fun _ => 0)) 42
      (toBatches 8 [⟨[], [], 5⟩])).params = 42 ∧
    (eval_model (fun (_ : Nat) (b : List Item) => b.map (fun _ => 0)) 42
      (toBatches 8 [⟨[], [], 5⟩])).predictions.length =
      (eval_model (fun (_ : Nat) (b : List Item) => b.map (fun _ => 0)) 42
        (toBatches 8 [⟨[], [], 5⟩])).true_labels.length ∧
    (eval_model (fun (_ : Nat) (b : List Item) => b.map (fun _ => 0)) 42
      (toBatches 8 [⟨[], [], 5⟩])).true_labels.length = 1 ∧
    (eval_model (fun (_ : Nat) (b : List Item) => b.map (fun _ => 0)) 42
      (toBatches 8 [⟨[], [], 5⟩])).true_labels = [5] :=
  c9_eval_model Nat (fun _ b => b.map (fun _ => 0)) 42 [⟨[], [], 5⟩]
    (by intro p b; simp)

end BERT

namespace Report

theorem sortedDistinct_sorted (l : List Nat) :
    (sortedDistinct l).Sorted (· ≤ ·) :=
  List.sorted_mergeSort' l.dedup

theorem sortedDistinct_nodup (l : List Nat) : (sortedDistinct l).Nodup :=
  (List.mergeSort_perm l.dedup _).nodup_iff.mpr l.nodup_dedup

theorem mem_sortedDistinct (l : List Nat) (i : Nat) :
    i ∈ sortedDistinct l ↔ i ∈ l := by
  rw [sortedDistinct, List.mem_mergeSort, List.mem_dedup]

theorem sortedDistinct_length_append (t p : List Nat)
    (hp : ∀ x ∈ p, x ∈ t) :
    (sortedDistinct (t ++ p)).length = (sortedDistinct t).length := by
  simp only [sortedDistinct, List.length_mergeSort]
  rw [← List.card_toFinset, ← List.card_toFinset]
  congr 1
  rw [List.toFinset_append]
  apply Finset.union_eq_left.mpr
  intro x hx
  exact List.mem_toFinset.mpr (hp x (List.mem_toFinset.mp hx))

/-- **C6, counterexample to the claim as stated.** On a run whose
predictions contain a label absent from the truncated test labels
(true labels `[0, 0]`, prediction `[1]`), label `0` does occur in the
test subset used, yet the report does not succeed: the derived label set
`{0, 1}` is larger than the supplied one-name list, the case in which
`classification_report` raises. -/
theorem c6_report_succeeds_counterexample :
    (0 : Nat) ∈ ([0, 0] : List Nat).take 2 ∧
    reportSucceeds (([0, 0] : List Nat).take 2) [1]
      (targetNames ["alt", "comp"] (([0, 0] : List Nat).take 2)) = false := by
  refine ⟨by decide, ?_⟩
  simp only [reportSucceeds, targetNames, List.length_map, sortedDistinct,
    List.length_mergeSort]
  decide

/-- **C6, as amended.** The class-name list passed to the evaluation
report is exactly the sorted distinct labels observed in the test subset
actually used, mapped to the dataset class names: the label list
underlying it is sorted, duplicate-free, and holds a label iff it occurs
in the truncated test labels; a name is listed iff some occurring label
maps to it; and the report call succeeds provided every predicted label
also occurs in the test subset used (one name per derived label;
otherwise the report derives more labels than names and fails). -/
theorem c6_report_class_list (names : List String) (testLabels : List Nat)
    (testSize : Nat) (preds : List Nat) :
    targetNames names (testLabels.take testSize) =
      (sortedDistinct (testLabels.take testSize)).map
        (fun i => names.getD i "") ∧
    (sortedDistinct (testLabels.take testSize)).Sorted (· ≤ ·) ∧
    (sortedDistinct (testLabels.take testSize)).Nodup ∧
    (∀ i, i ∈ sortedDistinct (testLabels.take testSize) ↔
      i ∈ testLabels.take testSize) ∧
    (∀ s, s ∈ targetNames names (testLabels.take testSize) ↔
      ∃ i ∈ testLabels.take testSize, names.getD i "" = s) ∧
    ((∀ x ∈ preds, x ∈ testLabels.take testSize) →
      reportSucceeds (testLabels.take testSize) preds
        (targetNames names (testLabels.take testSize)) = true) := by
  refine ⟨rfl, sortedDistinct_sorted _, sortedDistinct_nodup _,
    mem_sortedDistinct _, ?_, ?_⟩
  · intro s
    rw [targetNames, List.mem_map]
    constructor
    · rintro ⟨i, hi, rfl⟩
      exact ⟨i, (mem_sortedDistinct _ i).mp hi, rfl⟩
    · rintro ⟨i, hi, rfl⟩
      exact ⟨i, (mem_sortedDistinct _ i).mpr hi, rfl⟩
  · intro hp
    simp only [reportSucceeds, targetNames, List.length_map,
      sortedDistinct_length_append _ _ hp]
    exact beq_self_eq_true _

theorem c6_report_class_list_witness :
    targetNames ["alt", "comp"] (([1, 0, 1] : List Nat).take 2) =
      (sortedDistinct (([1, 0, 1] : List Nat).take 2)).map
        (fun i => ["alt", "comp"].getD i "") ∧
    (sortedDistinct (([1, 0, 1] : List Nat).take 2)).Sorted (· ≤ ·) ∧
    (sortedDistinct (([1, 0, 1] : List Nat).take 2)).Nodup ∧
    (∀ i, i ∈ sortedDistinct (([1, 0, 1] : List Nat).take 2) ↔
      i ∈ ([1, 0, 1] : List Nat).take 2) ∧
    (∀ s, s ∈ targetNames ["alt", "comp"] (([1, 0, 1] : List Nat).take 2) ↔
      ∃ i ∈ ([1, 0, 1] : List Nat).take 2,
        ["alt", "comp"].getD i "" = s) ∧
    ((∀ x ∈ ([0] : List Nat), x ∈ ([1, 0, 1] : List Nat).take 2) →
      reportSucceeds (([1, 0, 1] : List Nat).take 2) [0]
        (targetNames ["alt", "comp"] (([1, 0, 1] : List Nat).take 2)) =
          true) :=
  c6_report_class_list ["alt", "comp"] [1, 0, 1] 2 [0]

end Report
